import Mathlib

/-!
Verification of the mcp-composer configuration composition engine
(src/index.ts) against its natural-language specification.

The TypeScript source manipulates dynamically typed JSON data, so the
embedding models JSON values as an inductive type whose objects are
insertion-ordered association lists, exactly as JavaScript objects behave
for the operations the tool performs (property read, property write that
keeps the original insertion position, delete, Object.entries and
Object.keys in insertion order).  Each function of the source that the
claims mention is translated into a Lean definition over this type, and
process-terminating error paths (console.error followed by process.exit)
become Except errors.
-/

namespace MCPC

/-- A JSON value as produced by JSON.parse: null, booleans, numbers
(integers suffice for every value this tool handles), strings, arrays and
objects, with object fields kept as an insertion-ordered association
list. -/
inductive Json where
  | null : Json
  | bool (b : Bool) : Json
  | num (n : Int) : Json
  | str (s : String) : Json
  | arr (elems : List Json) : Json
  | obj (fields : List (String × Json)) : Json

/-- First binding of a key in an object's field list.  Objects built by
JSON.parse and by the tool have unique keys, so first equals only. -/
def lookupField : List (String × Json) → String → Option Json
  | [], _ => none
  | (k, v) :: rest, key => if k = key then some v else lookupField rest key

/-- Property read o[key]: some value when the key is present, none for a
missing property (JavaScript undefined) and for a non-object receiver. -/
def jsGet : Json → String → Option Json
  | .obj fields, key => lookupField fields key
  | _, _ => none

/-- JavaScript truthiness of a JSON value: null, false, 0 and the empty
string are falsy; every array and object (even empty ones) is truthy. -/
def jsTruthy : Json → Bool
  | .null => false
  | .bool b => b
  | .num n => n != 0
  | .str s => s != ""
  | .arr _ => true
  | .obj _ => true

/-- Model of the JavaScript default pattern o.key or d: the property value
when it is present and truthy, the default otherwise. -/
def jsOr (o : Json) (key : String) (d : Json) : Json :=
  match jsGet o key with
  | some v => if jsTruthy v then v else d
  | none => d

/-- Property write on a field list: overwrite in place when the key exists
(JavaScript keeps the key's original insertion position), append a new
binding otherwise. -/
def setField : List (String × Json) → String → Json → List (String × Json)
  | [], key, v => [(key, v)]
  | (k, w) :: rest, key, v =>
      if k = key then (k, v) :: rest else (k, w) :: setField rest key v

/-- Property write o[key] = v.  Writes to a non-object receiver are not
exercised by any theorem below and are modelled as the identity. -/
def objSet : Json → String → Json → Json
  | .obj fields, key, v => .obj (setField fields key v)
  | j, _, _ => j

/-- Model of delete o[key] on a field list. -/
def deleteField : List (String × Json) → String → List (String × Json)
  | [], _ => []
  | (k, w) :: rest, key =>
      if k = key then deleteField rest key else (k, w) :: deleteField rest key

/-- Model of JavaScript String.prototype.startsWith (all data handled by
the tool is plain text, where code units and characters coincide). -/
def strStartsWith (s pre : String) : Bool :=
  pre.toList.isPrefixOf s.toList

/-- Model of JavaScript String.prototype.endsWith. -/
def strEndsWith (s post : String) : Bool :=
  post.toList.isSuffixOf s.toList

/-- The placeholder test the source repeats at every site:
typeof value is string, value starts with the two characters "%\x7b" and
ends with "\x7d". -/
def isPlaceholderJson : Json → Bool
  | .str s => strStartsWith s "%\x7b" && strEndsWith s "\x7d"
  | _ => false

/-- Identifier inside a placeholder, value.substring(2, value.length - 1)
in the source.  On placeholder strings (whose length is at least 3 because
they start with "%\x7b" and end with "\x7d") dropping two characters at the
front and one at the back computes exactly that substring; the function is
only ever applied to placeholder strings. -/
def placeholderIdent (s : String) : String :=
  ⟨(s.toList.drop 2).dropLast⟩

/-- Identifier of a placeholder value; non-strings never pass the
placeholder test, so the value returned for them is irrelevant. -/
def identOfJson : Json → String
  | .str s => placeholderIdent s
  | _ => ""

/-! ### Argument placeholder replacement (add action, args block)

The add action walks the template's args keeping a cursor
(providedArgIndex) into the CLI-supplied arguments: a placeholder element
consumes the next supplied argument when one is left and is kept verbatim
otherwise; every other element passes through; afterwards the supplied
arguments that were not consumed are appended. -/

/-- The replacement loop of the add action.  Returns the rebuilt element
list together with the final cursor value. -/
def replaceArgsLoop (provided : List String) : List Json → Nat → List Json × Nat
  | [], i => ([], i)
  | a :: rest, i =>
    if isPlaceholderJson a then
      match provided[i]? with
      | some p =>
          let r := replaceArgsLoop provided rest (i + 1)
          (Json.str p :: r.1, r.2)
      | none =>
          let r := replaceArgsLoop provided rest i
          (a :: r.1, r.2)
    else
      let r := replaceArgsLoop provided rest i
      (a :: r.1, r.2)

/-- Whole args replacement step of the add action: run the loop from
cursor 0, then append the suffix of supplied arguments the loop did not
consume (the source guards the append with an index comparison that only
skips an empty suffix, so the unconditional append is equivalent). -/
def replaceArgs (tmplArgs : List Json) (provided : List String) : List Json :=
  let r := replaceArgsLoop provided tmplArgs 0
  r.1 ++ (provided.drop r.2).map Json.str

/-! ### Specification wording of argument replacement

The spec describes the same operation denotationally: the k-th placeholder
in left-to-right order takes the k-th supplied argument when it exists and
stays verbatim otherwise, non-placeholder elements pass through unchanged,
and the supplied arguments beyond the number of placeholders are appended
at the end.  The definitions below transcribe that wording; the refinement
theorem for claim C1 proves them equal to the source translation above. -/

/-- Number of positional placeholders in a template args list. -/
def countPlaceholders (l : List Json) : Nat :=
  (l.filter isPlaceholderJson).length

/-- Identifiers of the positional placeholders, in order of appearance. -/
def placeholderIdents (l : List Json) : List String :=
  (l.filter isPlaceholderJson).map identOfJson

/-- Spec wording, elementwise part: the element at placeholder ordinal k
becomes the k-th supplied argument when that exists. -/
def replaceArgsSpecGo (provided : List String) : List Json → Nat → List Json
  | [], _ => []
  | a :: rest, k =>
    if isPlaceholderJson a then
      (match provided[k]? with
       | some p => Json.str p
       | none => a) :: replaceArgsSpecGo provided rest (k + 1)
    else
      a :: replaceArgsSpecGo provided rest k

/-- Spec wording, whole operation: elementwise replacement followed by the
supplied arguments beyond the number of placeholders. -/
def replaceArgsSpec (tmplArgs : List Json) (provided : List String) : List Json :=
  replaceArgsSpecGo provided tmplArgs 0 ++
    (provided.drop (countPlaceholders tmplArgs)).map Json.str

/-! ### Requirement validator (validateServerRequirements) -/

/-- Tag of a missing requirement: a positional argument slot or an
environment variable. -/
inductive ReqType where
  | arg : ReqType
  | env : ReqType
  deriving DecidableEq, Repr

/-- One reported missing requirement, carrying the identifier declared
inside the placeholder. -/
structure MissingReq where
  type : ReqType
  name : String
  deriving DecidableEq, Repr

/-- Truthiness of process.env[name] as the source tests it with the bang
operator: an unset variable and a variable set to the empty string both
count as missing. -/
def envTruthy (lookup : String → Option String) (name : String) : Bool :=
  match lookup name with
  | some v => v != ""
  | none => false

/-- The args half of the validator: walks the template args counting
placeholders; once the running count exceeds the number of provided
arguments, each further placeholder is reported missing, in order,
under its declared identifier. -/
def validateArgsLoop (provided : List String) : List Json → Nat → List MissingReq
  | [], _ => []
  | a :: rest, count =>
    if isPlaceholderJson a then
      if provided.length < count + 1 then
        ⟨ReqType.arg, identOfJson a⟩ :: validateArgsLoop provided rest (count + 1)
      else
        validateArgsLoop provided rest (count + 1)
    else
      validateArgsLoop provided rest count

/-- The env half of the validator: every env entry whose value is a
placeholder and whose identifier is unset or empty in the environment is
reported missing. -/
def envMissingList (lookup : String → Option String) :
    List (String × Json) → List MissingReq
  | [] => []
  | (_, v) :: rest =>
    if isPlaceholderJson v then
      if envTruthy lookup (identOfJson v) then envMissingList lookup rest
      else ⟨ReqType.env, identOfJson v⟩ :: envMissingList lookup rest
    else
      envMissingList lookup rest

/-- validateServerRequirements: collects the missing positional slots, then
the missing environment variables (the source later regroups the items by
type for the message, which keeps this same order because args items are
pushed before env items).  The source guards each half with a truthiness
test on the field, so a missing or falsy args or env contributes nothing;
a truthy args that is not an array would make the source's for..of iterate
characters (yielding no placeholders) or throw, and a truthy env that is
not an object would enumerate no entries or index entries — neither shape
occurs in a well-formed registry and both are modelled as contributing
nothing. -/
def validateArgsPart (serverConfig : Json) (provided : List String) :
    List MissingReq :=
  match jsGet serverConfig "args" with
  | some (Json.arr elems) => validateArgsLoop provided elems 0
  | _ => []

def validateEnvPart (serverConfig : Json) (lookup : String → Option String) :
    List MissingReq :=
  match jsGet serverConfig "env" with
  | some (Json.obj fields) => envMissingList lookup fields
  | _ => []

def validateServerRequirements (serverConfig : Json) (provided : List String)
    (lookup : String → Option String) : List MissingReq :=
  validateArgsPart serverConfig provided ++ validateEnvPart serverConfig lookup

/-! ### Env placeholder replacement (add action, env block) -/

/-- The env replacement loop of the add action: a placeholder value whose
variable is set to a non-empty string is substituted by that string; a
placeholder whose variable is unset or empty is kept literally and its
identifier is recorded as a warning (console.warn in the source — the
operation itself continues and succeeds); every other value passes
through.  Returns the rebuilt entry list and the warned identifiers. -/
def replaceEnvEntries (lookup : String → Option String) :
    List (String × Json) → List (String × Json) × List String
  | [] => ([], [])
  | (k, v) :: rest =>
      let r := replaceEnvEntries lookup rest
      if isPlaceholderJson v then
        match lookup (identOfJson v) with
        | some ev =>
            if ev != "" then ((k, Json.str ev) :: r.1, r.2)
            else ((k, v) :: r.1, identOfJson v :: r.2)
        | none => ((k, v) :: r.1, identOfJson v :: r.2)
      else
        ((k, v) :: r.1, r.2)

/-- Elementwise description of the env replacement used by the theorems
below: what replaceEnvEntries does to one entry. -/
def envSubstEntry (lookup : String → Option String) (e : String × Json) :
    String × Json :=
  if isPlaceholderJson e.2 then
    match lookup (identOfJson e.2) with
    | some ev => if ev != "" then (e.1, Json.str ev) else e
    | none => e
  else e

/-! ### The add action -/

/-- Errors that terminate an add (console.error followed by process.exit in
the source).  The client and server registry lookups happen before the part
of the action the claims are about and are not modelled; typeError stands
for the JavaScript exception a malformed (non-array args, non-object env
or mcpServers) value would raise. -/
inductive AddError where
  | missingRequirements (items : List MissingReq) : AddError
  | alreadyExists : AddError
  | typeError : AddError

/-- Args block of the add action on the copied server config: a present
array is rewritten by replaceArgs; a missing or falsy args field is
replaced by the provided arguments when any were given; a truthy non-array
(which the source's for..of would iterate as characters or throw on) does
not occur in a well-formed registry and is modelled as a type error. -/
def resolveArgsStep (sc : Json) (provided : List String) : Except AddError Json :=
  match jsGet sc "args" with
  | some (Json.arr elems) =>
      .ok (objSet sc "args" (Json.arr (replaceArgs elems provided)))
  | some v =>
      if jsTruthy v then .error .typeError
      else if provided.length > 0 then
        .ok (objSet sc "args" (Json.arr (provided.map Json.str)))
      else .ok sc
  | none =>
      if provided.length > 0 then
        .ok (objSet sc "args" (Json.arr (provided.map Json.str)))
      else .ok sc

/-- Env block of the add action: a present object is rewritten by
replaceEnvEntries; a missing or falsy env contributes nothing; a truthy
non-object is modelled as a type error (see resolveArgsStep). -/
def resolveEnvStep (sc : Json) (lookup : String → Option String) :
    Except AddError (Json × List String) :=
  match jsGet sc "env" with
  | some (Json.obj fields) =>
      let r := replaceEnvEntries lookup fields
      .ok (objSet sc "env" (Json.obj r.1), r.2)
  | some v => if jsTruthy v then .error .typeError else .ok (sc, [])
  | none => .ok (sc, [])

/-- Fields the spread copy of the template starts from: an object's
fields; spreading a primitive contributes no fields (string and array
index properties do not occur as registry templates). -/
def templateFields : Json → List (String × Json)
  | .obj f => f
  | _ => []

/-- The resolution part of the add action: shallow-copy the template (the
spread of an object copies its fields; the registry's templates are
objects), then run the args and env blocks.  Returns the resolved entry
and the warned identifiers. -/
def resolveServer (serverConfig : Json) (provided : List String)
    (lookup : String → Option String) : Except AddError (Json × List String) :=
  match resolveArgsStep (Json.obj (templateFields serverConfig)) provided with
  | .error e => .error e
  | .ok sc1 => resolveEnvStep sc1 lookup

/-- The add action's mcpServers guard: a missing or falsy mcpServers is
replaced by an empty object; a present object is kept; assignment through
a truthy non-object would throw and is modelled as a type error.  Returns
the (possibly updated) configuration and the mapping's field list. -/
def ensureServers (clientCfg : Json) :
    Except AddError (Json × List (String × Json)) :=
  match jsGet clientCfg "mcpServers" with
  | some (Json.obj f) => .ok (clientCfg, f)
  | some v =>
      if jsTruthy v then .error .typeError
      else .ok (objSet clientCfg "mcpServers" (Json.obj []), [])
  | none => .ok (objSet clientCfg "mcpServers" (Json.obj []), [])

/-- The truthiness test clientConfig.mcpServers[server] the add action
uses to detect an existing entry (a falsy entry does not count). -/
def serverPresentIn (serversFields : List (String × Json)) (server : String) :
    Bool :=
  match lookupField serversFields server with
  | some v => jsTruthy v
  | none => false

/-- The add action after the registry lookups: validate the requirements
(a non-empty report is a hard stop before any mutation), guard mcpServers,
fail AlreadyExists when the instance name maps to a truthy entry and force
was not given, resolve the template and persist the updated
configuration.  The ok result carries the persisted configuration and the
env warnings. -/
def addCommand (serverConfig clientCfg : Json) (server : String)
    (provided : List String) (lookup : String → Option String) (force : Bool) :
    Except AddError (Json × List String) :=
  match validateServerRequirements serverConfig provided lookup with
  | [] =>
    (match ensureServers clientCfg with
     | .error e => .error e
     | .ok (cfg1, serversFields) =>
        if serverPresentIn serversFields server && !force then
          .error .alreadyExists
        else
          match resolveServer serverConfig provided lookup with
          | .error e => .error e
          | .ok (entry, warnings) =>
              .ok (objSet cfg1 "mcpServers"
                     (Json.obj (setField serversFields server entry)),
                   warnings))
  | m => .error (.missingRequirements m)

/-! ### The remove, clear and list actions -/

inductive RemoveError where
  | notFound : RemoveError

/-- The remove action after the client check: NotFound when mcpServers is
missing or falsy or the instance entry is missing or falsy, otherwise
delete the entry and persist. -/
def mcpServerPresent (clientCfg : Json) (server : String) : Bool :=
  match jsGet clientCfg "mcpServers" with
  | some m =>
      jsTruthy m &&
        (match jsGet m server with
         | some v => jsTruthy v
         | none => false)
  | none => false

def removeCommand (clientCfg : Json) (server : String) :
    Except RemoveError Json :=
  if mcpServerPresent clientCfg server then
    match jsGet clientCfg "mcpServers" with
    | some (Json.obj f) =>
        .ok (objSet clientCfg "mcpServers" (Json.obj (deleteField f server)))
    | _ => .error .notFound
  else .error .notFound

/-- Object.keys in insertion order; arrays and strings enumerate their
index keys, other primitives none. -/
def jsObjectKeys : Json → List String
  | .obj f => f.map Prod.fst
  | .arr l => (List.range l.length).map toString
  | .str s => (List.range s.toList.length).map toString
  | _ => []

/-- Outcome of the clear action: the source returns early, without
persisting, whenever mcpServers is missing, falsy or empty (printing that
no servers are configured — a success, not an error), and otherwise
replaces the mapping by an empty object, persists, and reports the prior
count. -/
inductive ClearResult where
  | noServers : ClearResult
  | cleared (count : Nat) (persisted : Json) : ClearResult

/-- The clear action after the client check. -/
def clearCommand (cfg : Json) : ClearResult :=
  match jsGet cfg "mcpServers" with
  | none => .noServers
  | some v =>
      if jsTruthy v = false then .noServers
      else if (jsObjectKeys v).length = 0 then .noServers
      else .cleared (jsObjectKeys v).length (objSet cfg "mcpServers" (Json.obj []))

/-- The registered clients, in the order the all-clients list iterates
them. -/
def validClients : List String := ["claude", "cline", "opencode", "y-cli"]

/-- Server-instance names a client contributes to the list output: the
mapping's keys when mcpServers is truthy and non-empty, nothing
otherwise. -/
def clientServerNames (cfg : Json) : List String :=
  match jsGet cfg "mcpServers" with
  | some m =>
      if jsTruthy m && decide ((jsObjectKeys m).length > 0) then jsObjectKeys m
      else []
  | none => []

/-- The all-clients list loop.  load models getClientConfig: its error case
is the read/parse failure which getClientConfig itself catches and turns
into process.exit(1), terminating the whole process — so the loop's own
try/catch (which would print the client and continue) never receives an
exception, and a failing client aborts the remaining iterations.  The
error result of this function is that process exit. -/
def listAllGo (load : String → Except Unit Json) :
    List String → Except Unit (List (String × List String))
  | [] => .ok []
  | c :: rest =>
      match load c with
      | .error _ => .error ()
      | .ok cfg =>
          match listAllGo load rest with
          | .error e => .error e
          | .ok r =>
              .ok (if decide ((clientServerNames cfg).length > 0) then
                     (c, clientServerNames cfg) :: r
                   else r)

/-- The list action invoked without a client argument. -/
def listAllClients (load : String → Except Unit Json) :
    Except Unit (List (String × List String)) :=
  listAllGo load validClients

/-! ### JSON text: a model of JSON.parse and JSON.stringify

getJsonlinesConfig and updateJsonlinesConfig work on file text, so the
model needs executable parse and stringify functions.  They cover the JSON
fragment this tool's data uses (no floating point fractions or exponents,
no unicode escapes); inputs outside the fragment parse to none, which the
adapter maps to its read-error exit. -/

def isWsChar (c : Char) : Bool :=
  c = ' ' || c = '\n' || c = '\t' || c = '\r'

/-- Model of String.prototype.trim over the whitespace this tool's files
contain. -/
def strTrim (s : String) : String :=
  ⟨((s.toList.dropWhile isWsChar).reverse.dropWhile isWsChar).reverse⟩

/-- Model of split on the newline character. -/
def splitOnNl : List Char → List (List Char)
  | [] => [[]]
  | c :: rest =>
      let r := splitOnNl rest
      if c = '\n' then [] :: r
      else
        match r with
        | [] => [[c]]
        | l :: ls => (c :: l) :: ls

def digitChar (c : Char) : Bool := c.isDigit

/-- Decimal digits to a Nat (48 is the code of the zero digit). -/
def digitsToNat (ds : List Char) : Nat :=
  ds.foldl (fun acc d => 10 * acc + (d.toNat - 48)) 0

/-- Decoded escape character after a backslash inside a JSON string
(unicode escapes, absent from this tool's data, are out of the covered
fragment). -/
def escDecode (e : Char) : Option Char :=
  if e = '"' ∨ e = '\\' ∨ e = '/' then some e
  else if e = 'n' then some '\n'
  else if e = 't' then some '\t'
  else if e = 'r' then some '\r'
  else if e = 'b' then some '\x08'
  else if e = 'f' then some '\x0c'
  else none

/-- String body after the opening quote: the decoded characters and the
rest of the input after the closing quote. -/
def parseStrRest : List Char → Option (List Char × List Char)
  | [] => none
  | '"' :: rest => some ([], rest)
  | '\\' :: rest =>
      match rest with
      | [] => none
      | e :: rest2 =>
          match escDecode e with
          | some c =>
              match parseStrRest rest2 with
              | some (cs, r) => some (c :: cs, r)
              | none => none
          | none => none
  | c :: rest =>
      match parseStrRest rest with
      | some (cs, r) => some (c :: cs, r)
      | none => none

/-- Integer literal (fractions and exponents are outside the covered
fragment and rejected). -/
def parseIntLit (cs : List Char) : Option (Json × List Char) :=
  let core := fun (l : List Char) (sign : Int) =>
    let p := l.span digitChar
    match p.1 with
    | [] => none
    | ds =>
        match p.2 with
        | '.' :: _ => none
        | 'e' :: _ => none
        | 'E' :: _ => none
        | rest => some (Json.num (sign * (digitsToNat ds : Int)), rest)
  match cs with
  | '-' :: rest => core rest (-1)
  | _ => core cs 1

mutual

/-- JSON value, fuel-bounded recursive descent. -/
def parseVal : Nat → List Char → Option (Json × List Char)
  | 0, _ => none
  | fuel + 1, cs =>
    match cs.dropWhile isWsChar with
    | 'n' :: 'u' :: 'l' :: 'l' :: rest => some (Json.null, rest)
    | 't' :: 'r' :: 'u' :: 'e' :: rest => some (Json.bool true, rest)
    | 'f' :: 'a' :: 'l' :: 's' :: 'e' :: rest => some (Json.bool false, rest)
    | '"' :: rest =>
        (match parseStrRest rest with
         | some (chars, rest2) => some (Json.str ⟨chars⟩, rest2)
         | none => none)
    | '[' :: rest =>
        (match rest.dropWhile isWsChar with
         | ']' :: rest2 => some (Json.arr [], rest2)
         | _ =>
             match parseElems fuel rest with
             | some (es, rest2) => some (Json.arr es, rest2)
             | none => none)
    | '\x7b' :: rest =>
        (match rest.dropWhile isWsChar with
         | '\x7d' :: rest2 => some (Json.obj [], rest2)
         | _ =>
             match parseMembers fuel rest with
             | some (fs, rest2) =>
                 some (Json.obj (fs.foldl (fun acc p => setField acc p.1 p.2) []),
                       rest2)
             | none => none)
    | c :: rest =>
        if c = '-' || digitChar c then parseIntLit (c :: rest) else none
    | [] => none

/-- Comma-separated array elements up to the closing bracket. -/
def parseElems : Nat → List Char → Option (List Json × List Char)
  | 0, _ => none
  | fuel + 1, cs =>
    match parseVal fuel cs with
    | some (j, rest) =>
        (match rest.dropWhile isWsChar with
         | ',' :: rest2 =>
             (match parseElems fuel rest2 with
              | some (es, rest3) => some (j :: es, rest3)
              | none => none)
         | ']' :: rest2 => some ([j], rest2)
         | _ => none)
    | none => none

/-- Comma-separated object members up to the closing brace (duplicate keys
are folded by the caller the way JavaScript object literals are: last
occurrence wins, first position kept). -/
def parseMembers : Nat → List Char → Option (List (String × Json) × List Char)
  | 0, _ => none
  | fuel + 1, cs =>
    match cs.dropWhile isWsChar with
    | '"' :: rest =>
        (match parseStrRest rest with
         | some (kchars, rest2) =>
             (match rest2.dropWhile isWsChar with
              | ':' :: rest3 =>
                  (match parseVal fuel rest3 with
                   | some (v, rest4) =>
                       (match rest4.dropWhile isWsChar with
                        | ',' :: rest5 =>
                            (match parseMembers fuel rest5 with
                             | some (fs, rest6) =>
                                 some ((⟨kchars⟩, v) :: fs, rest6)
                             | none => none)
                        | '\x7d' :: rest5 => some ([(⟨kchars⟩, v)], rest5)
                        | _ => none)
                   | none => none)
              | _ => none)
         | none => none)
    | _ => none

end

/-- Model of JSON.parse on one line of text: none on anything the covered
fragment rejects (which the adapter maps to its read-error exit, exactly
as a JSON.parse throw is caught and exits). -/
def parseJsonFull (s : String) : Option Json :=
  match parseVal (s.toList.length + 16) s.toList with
  | some (j, rest) =>
      if (rest.dropWhile isWsChar).isEmpty then some j else none
  | none => none

/-- One escaped output character of JSON.stringify (control characters
other than the common escapes, absent from this tool's data, are outside
the covered fragment). -/
def escEncode (c : Char) : String :=
  if c = '"' then "\\\""
  else if c = '\\' then "\\\\"
  else if c = '\n' then "\\n"
  else if c = '\t' then "\\t"
  else if c = '\r' then "\\r"
  else String.singleton c

def quoteJson (s : String) : String :=
  "\"" ++ String.join (s.toList.map escEncode) ++ "\""

mutual

/-- Model of JSON.stringify without indentation (the form the JSON-Lines
writer uses), emitting object fields in insertion order as JavaScript
does. -/
def stringifyJson : Json → String
  | .null => "null"
  | .bool true => "true"
  | .bool false => "false"
  | .num n => toString n
  | .str s => quoteJson s
  | .arr es => "[" ++ stringifyElems es ++ "]"
  | .obj fs => "\x7b" ++ stringifyFields fs ++ "\x7d"

def stringifyElems : List Json → String
  | [] => ""
  | [j] => stringifyJson j
  | j :: rest => stringifyJson j ++ "," ++ stringifyElems rest

def stringifyFields : List (String × Json) → String
  | [] => ""
  | [(k, v)] => quoteJson k ++ ":" ++ stringifyJson v
  | (k, v) :: rest =>
      quoteJson k ++ ":" ++ stringifyJson v ++ "," ++ stringifyFields rest

end

/-! ### The JSON-Lines adapter -/

/-- The defaulted fields every normalized record carries:
config.args or [], config.env or an empty object, config.auto_confirm or
[]. -/
def jsonlDefaults (c : Json) : List (String × Json) :=
  [("args", jsOr c "args" (Json.arr [])),
   ("env", jsOr c "env" (Json.obj [])),
   ("auto_confirm", jsOr c "auto_confirm" (Json.arr []))]

/-- Normalized mapping value built from one parsed record.  A record
without a command gets the key bound to undefined in JavaScript, which is
indistinguishable from an absent key for everything the tool does with it
(truthiness reads and JSON.stringify, which omits it), so the model omits
the key. -/
def jsonlEntryOf (c : Json) : Json :=
  Json.obj
    ((match jsGet c "command" with
      | some v => [("command", v)]
      | none => []) ++ jsonlDefaults c)

/-- Folding parsed records into the mapping: records whose name is a
non-empty string are inserted (later records overwrite earlier ones of the
same name in place); records with a falsy name are skipped by the source;
truthy non-string names (which JavaScript would coerce to a property key)
do not occur in y-cli files and are modelled as skipped. -/
def foldJsonl : List Json → List (String × Json) → List (String × Json)
  | [], acc => acc
  | c :: rest, acc =>
      match jsGet c "name" with
      | some (Json.str n) =>
          if n != "" then foldJsonl rest (setField acc n (jsonlEntryOf c))
          else foldJsonl rest acc
      | _ => foldJsonl rest acc

/-- getJsonlinesConfig on the file's text: an empty (or whitespace-only)
file is an empty mapping; otherwise every line must parse, and the parsed
records are folded into the normalized mapping under the fixed mcpServers
key.  The error case models the catch that prints and exits. -/
def getJsonlinesConfig (content : String) : Except String Json :=
  if strTrim content = "" then
    .ok (Json.obj [("mcpServers", Json.obj [])])
  else
    match (splitOnNl (strTrim content).toList).mapM
        (fun l => parseJsonFull ⟨l⟩) with
    | some records =>
        .ok (Json.obj [("mcpServers", Json.obj (foldJsonl records []))])
    | none => .error "jsonl parse failure"

/-- getJsonlinesConfig including the read: a missing or unreadable file
makes readFileSync throw, which the source's catch turns into
process.exit(1) — modelled as the error case. -/
def readJsonlinesFile : Option String → Except String Json
  | none => .error "jsonl read failure"
  | some content => getJsonlinesConfig content

/-- One output record of updateJsonlinesConfig: name first, then the
entry's command (when present), then the defaulted args, env and
auto_confirm. -/
def jsonlRecordOf (name : String) (sc : Json) : Json :=
  Json.obj
    (("name", Json.str name) ::
      ((match jsGet sc "command" with
        | some v => [("command", v)]
        | none => []) ++ jsonlDefaults sc))

/-- The record list updateJsonlinesConfig serializes, one per mapping
entry in order. -/
def jsonlSaveRecords (mapping : List (String × Json)) : List Json :=
  mapping.map (fun p => jsonlRecordOf p.1 p.2)

/-- Model of join with a newline. -/
def joinNl : List String → String
  | [] => ""
  | [s] => s
  | s :: rest => s ++ "\n" ++ joinNl rest

/-- updateJsonlinesConfig: re-emit one line per mapping entry (a falsy
mcpServers serializes nothing; a truthy non-object does not occur). -/
def updateJsonlinesConfig (config : Json) : String :=
  let servers :=
    match jsGet config "mcpServers" with
    | some (Json.obj f) => f
    | _ => []
  joinNl ((jsonlSaveRecords servers).map stringifyJson)

/-- The normalized mapping a record list folds to. -/
def jsonlFold (records : List Json) : List (String × Json) :=
  foldJsonl records []

/-- Shape invariant of every value the JSON-Lines fold stores: a non-empty
instance name and an object with an optional command field followed by the
three defaulted fields, each of them truthy (the defaults — an empty array
or object — are themselves truthy in JavaScript). -/
def EntryShape (n : String) (sc : Json) : Prop :=
  n ≠ "" ∧
  ∃ (cmd : List (String × Json)) (a e ac : Json),
    (cmd = [] ∨ ∃ c, cmd = [("command", c)]) ∧
    sc = Json.obj (cmd ++ [("args", a), ("env", e), ("auto_confirm", ac)]) ∧
    jsTruthy a = true ∧ jsTruthy e = true ∧ jsTruthy ac = true

/-! ### Claim statements taken literally

Each CnStatement transcribes the claim text Cn as written; the
counterexample theorems below refute the ones the code does not satisfy. -/

/-- The y-cli sample line of the spec scenario. -/
def jsonlLine : String :=
  "\x7b\"name\":\"fetch\",\"command\":\"uvx\",\"args\":[\"mcp-server-fetch\"]\x7d"

/-- Claim C3 as stated: an env placeholder whose identifier is present in
the lookup is replaced exactly once by the looked-up string and the
resolved env holds no placeholder syntax at that position; one whose
identifier is absent keeps the literal placeholder and signals a
warning. -/
def C3Statement : Prop :=
  ∀ (envEntries : List (String × Json)) (lookup : String → Option String)
    (i : Nat) (k : String) (v : Json),
    envEntries[i]? = some (k, v) → isPlaceholderJson v = true →
    ((lookup (identOfJson v)).isSome = true →
        ∃ ev, lookup (identOfJson v) = some ev ∧
          (replaceEnvEntries lookup envEntries).1[i]? = some (k, Json.str ev) ∧
          isPlaceholderJson (Json.str ev) = false) ∧
    ((lookup (identOfJson v)).isSome = false →
        (replaceEnvEntries lookup envEntries).1[i]? = some (k, v) ∧
        identOfJson v ∈ (replaceEnvEntries lookup envEntries).2)

/-- Claim C5 as stated: the record-level round trip holds for every
JSON-Lines file, and the sample line re-saves to the identical single
line. -/
def C5Statement : Prop :=
  (∀ records : List Json,
      jsonlFold (jsonlSaveRecords (jsonlFold records)) = jsonlFold records) ∧
  (∃ cfg, getJsonlinesConfig jsonlLine = .ok cfg ∧
      updateJsonlinesConfig cfg = jsonlLine)

/-- Claim C6 as stated: an empty file and a missing file both load to the
empty mapping without error. -/
def C6Statement : Prop :=
  readJsonlinesFile (some "") = .ok (Json.obj [("mcpServers", Json.obj [])]) ∧
  readJsonlinesFile none = .ok (Json.obj [("mcpServers", Json.obj [])])

/-- Claim C7 as stated: on a configuration with zero server instances,
clear persists an emptied mapping and reports a cleared count of 0. -/
def C7Statement : Prop :=
  ∀ cfg : Json, jsGet cfg "mcpServers" = some (Json.obj []) →
    clearCommand cfg = .cleared 0 (objSet cfg "mcpServers" (Json.obj []))

/-- Claim C10 as stated: every successful add has an empty warning list
(the fallback branch never fires) and persists an entry whose env holds no
placeholder whose identifier is set to a non-empty value. -/
def C10Statement : Prop :=
  ∀ (serverConfig clientCfg : Json) (server : String) (provided : List String)
    (lookup : String → Option String) (force : Bool) (res : Json × List String),
    addCommand serverConfig clientCfg server provided lookup force = .ok res →
    res.2 = [] ∧
    (∀ m entry ef k v,
      jsGet res.1 "mcpServers" = some m → jsGet m server = some entry →
      jsGet entry "env" = some (Json.obj ef) → (k, v) ∈ ef →
      isPlaceholderJson v = true →
      envTruthy lookup (identOfJson v) = false)

theorem replaceArgsSpecGo_of_le (provided : List String) :
    ∀ (t : List Json) (k : Nat), provided.length ≤ k →
      replaceArgsSpecGo provided t k = t := by
  intro t
  induction t with
  | nil => intro k _; rfl
  | cons a rest ih =>
      intro k hk
      have hnone : provided[k]? = none := List.getElem?_eq_none hk
      by_cases hp : isPlaceholderJson a
      · simp [replaceArgsSpecGo, hp, hnone, ih (k + 1) (Nat.le_succ_of_le hk)]
      · simp [replaceArgsSpecGo, hp, ih k hk]

theorem replaceArgsLoop_eq_spec (provided : List String) :
    ∀ (t : List Json) (i : Nat), i ≤ provided.length →
      replaceArgsLoop provided t i =
        (replaceArgsSpecGo provided t i,
         min (i + countPlaceholders t) provided.length) := by
  intro t
  induction t with
  | nil =>
      intro i hi
      simp [replaceArgsLoop, replaceArgsSpecGo, countPlaceholders,
        Nat.min_eq_left hi]
  | cons a rest ih =>
      intro i hi
      by_cases hp : isPlaceholderJson a
      · rcases Nat.lt_or_ge i provided.length with hlt | hge
        · have hsome : provided[i]? = some provided[i] :=
            List.getElem?_eq_getElem hlt
          have hcount : countPlaceholders (a :: rest) =
              countPlaceholders rest + 1 := by
            simp [countPlaceholders, hp, Nat.add_comm]
          simp only [replaceArgsLoop, replaceArgsSpecGo, hp, hsome,
            if_true, ih (i + 1) hlt, hcount, Prod.mk.injEq]
          exact ⟨trivial, by omega⟩
        · have hi' : i = provided.length := Nat.le_antisymm hi hge
          have hnone : provided[i]? = none := List.getElem?_eq_none hge
          have hrest := ih i hi
          have hspec := replaceArgsSpecGo_of_le provided rest (i + 1)
            (Nat.le_succ_of_le hge)
          have hspec' := replaceArgsSpecGo_of_le provided rest i hge
          simp only [replaceArgsLoop, replaceArgsSpecGo, hp, hnone, if_true,
            hrest, hspec, hspec', Prod.mk.injEq]
          exact ⟨trivial, by subst hi'; omega⟩
      · have hcount : countPlaceholders (a :: rest) = countPlaceholders rest := by
          simp [countPlaceholders, hp]
        simp only [replaceArgsLoop, replaceArgsSpecGo, hp, if_false,
          Bool.false_eq_true, ih i hi, hcount]

/-- C1: the add action's args replacement scans left to right, fills each
placeholder with the next unused supplied argument by position, keeps the
remaining placeholders verbatim once the supplied arguments run out,
passes every non-placeholder element through unchanged, and appends the
supplied arguments beyond the number of placeholders at the end — i.e. the
source loop equals the specification-worded function. -/
theorem C1_args_replacement (tmplArgs : List Json) (provided : List String) :
    replaceArgs tmplArgs provided = replaceArgsSpec tmplArgs provided := by
  have h := replaceArgsLoop_eq_spec provided tmplArgs 0 (Nat.zero_le _)
  simp only [replaceArgs, replaceArgsSpec, h, Nat.zero_add]
  congr 1
  rcases Nat.le_total (countPlaceholders tmplArgs) provided.length with hle | hge
  · rw [Nat.min_eq_left hle]
  · rw [Nat.min_eq_right hge]
    rw [List.drop_eq_nil_of_le (le_refl _), List.drop_eq_nil_of_le hge]

/-! ### Association-list lemmas -/

theorem lookupField_setField_self (f : List (String × Json)) (k : String)
    (v : Json) : lookupField (setField f k v) k = some v := by
  induction f with
  | nil => simp [setField, lookupField]
  | cons p rest ih =>
      by_cases h : p.1 = k
      · simp [setField, lookupField, h]
      · simp [setField, lookupField, h, ih]

theorem lookupField_setField_ne (f : List (String × Json)) (k key : String)
    (v : Json) (h : key ≠ k) :
    lookupField (setField f k v) key = lookupField f key := by
  induction f with
  | nil =>
      simp only [setField, lookupField]
      rw [if_neg (fun hh => h hh.symm)]
  | cons p rest ih =>
      rcases p with ⟨p1, p2⟩
      by_cases h1 : p1 = k
      · have hne : ¬ p1 = key := fun hh => h ((hh ▸ h1 : key = k))
        simp only [setField, if_pos h1, lookupField, if_neg hne]
      · simp only [setField, if_neg h1, lookupField, ih]

theorem setField_setField (f : List (String × Json)) (k : String)
    (a b : Json) : setField (setField f k a) k b = setField f k b := by
  induction f with
  | nil => simp [setField]
  | cons p rest ih =>
      by_cases h : p.1 = k
      · simp [setField, h]
      · simp [setField, h, ih]

theorem objSet_objSet (c : Json) (k : String) (a b : Json) :
    objSet (objSet c k a) k b = objSet c k b := by
  cases c <;> simp [objSet, setField_setField]

theorem jsGet_objSet_self (f : List (String × Json)) (k : String) (v : Json) :
    jsGet (objSet (Json.obj f) k v) k = some v := by
  simp [objSet, jsGet, lookupField_setField_self]

theorem jsGet_objSet_ne (c : Json) (k key : String) (v : Json)
    (h : key ≠ k) : jsGet (objSet c k v) key = jsGet c key := by
  cases c <;> simp [objSet, jsGet, lookupField_setField_ne _ _ _ _ h]

theorem mem_setField (f : List (String × Json)) (k : String) (v : Json)
    (p : String × Json) (hp : p ∈ setField f k v) : p ∈ f ∨ p = (k, v) := by
  induction f with
  | nil => simp [setField] at hp; simp [hp]
  | cons q rest ih =>
      by_cases h : q.1 = k
      · rw [setField] at hp
        rw [if_pos h] at hp
        rcases List.mem_cons.mp hp with h1 | h1
        · right; rw [h1, ← h]
        · left; exact List.mem_cons_of_mem _ h1
      · rw [setField] at hp
        rw [if_neg h] at hp
        rcases List.mem_cons.mp hp with h1 | h1
        · left; rw [h1]; exact List.mem_cons_self _ _
        · rcases ih h1 with h2 | h2
          · left; exact List.mem_cons_of_mem _ h2
          · right; exact h2

theorem setField_append (f : List (String × Json)) (k : String) (v : Json)
    (h : k ∉ f.map Prod.fst) : setField f k v = f ++ [(k, v)] := by
  induction f with
  | nil => simp [setField]
  | cons p rest ih =>
      simp only [List.map_cons, List.mem_cons] at h
      push_neg at h
      rw [setField, if_neg (fun hh => h.1 hh.symm), ih h.2]
      rfl

theorem setField_map_fst_of_mem (f : List (String × Json)) (k : String)
    (v : Json) (h : k ∈ f.map Prod.fst) :
    (setField f k v).map Prod.fst = f.map Prod.fst := by
  induction f with
  | nil => simp at h
  | cons p rest ih =>
      by_cases h1 : p.1 = k
      · simp [setField, h1]
      · simp only [List.map_cons, List.mem_cons] at h
        rcases h with h | h
        · exact absurd h.symm h1
        · simp [setField, h1, ih h]

/-! ### Claim C2: the validator's missing positional report -/

theorem validateArgsLoop_eq (provided : List String) :
    ∀ (t : List Json) (c : Nat),
      validateArgsLoop provided t c =
        ((placeholderIdents t).drop (provided.length - c)).map
          (fun n => (⟨ReqType.arg, n⟩ : MissingReq)) := by
  intro t
  induction t with
  | nil => intro c; simp [validateArgsLoop, placeholderIdents]
  | cons a rest ih =>
      intro c
      by_cases hp : isPlaceholderJson a
      · have hIdents : placeholderIdents (a :: rest) =
            identOfJson a :: placeholderIdents rest := by
          simp [placeholderIdents, hp]
        by_cases hc : provided.length < c + 1
        · have h0 : provided.length - c = 0 := by omega
          have h0' : provided.length - (c + 1) = 0 := by omega
          simp [validateArgsLoop, hp, hc, ih (c + 1), hIdents, h0, h0']
        · have h1 : provided.length - c = (provided.length - (c + 1)) + 1 := by
            omega
          simp only [validateArgsLoop, hp, if_true, if_neg hc, ih (c + 1),
            hIdents, h1, List.drop_succ_cons]
      · have hIdents : placeholderIdents (a :: rest) = placeholderIdents rest := by
          simp [placeholderIdents, hp]
        simp [validateArgsLoop, hp, ih c, hIdents]

theorem envMissingList_types (lookup : String → Option String) :
    ∀ (fields : List (String × Json)) (m : MissingReq),
      m ∈ envMissingList lookup fields → m.type = ReqType.env := by
  intro fields
  induction fields with
  | nil => intro m hm; simp [envMissingList] at hm
  | cons e rest ih =>
      intro m hm
      rcases e with ⟨k, v⟩
      by_cases hp : isPlaceholderJson v
      · by_cases ht : envTruthy lookup (identOfJson v)
        · rw [envMissingList, if_pos hp, if_pos ht] at hm
          exact ih m hm
        · rw [envMissingList, if_pos hp, if_neg ht] at hm
          rcases List.mem_cons.mp hm with h | h
          · rw [h]
          · exact ih m h
      · rw [envMissingList, if_neg hp] at hm
        exact ih m hm

theorem validateEnvPart_types (serverConfig : Json)
    (lookup : String → Option String) (m : MissingReq)
    (hm : m ∈ validateEnvPart serverConfig lookup) : m.type = ReqType.env := by
  unfold validateEnvPart at hm
  split at hm
  · exact envMissingList_types lookup _ m hm
  · simp at hm

/-- C2: a template with N positional placeholders given M < N supplied
arguments makes the validator report exactly N − M missing positional
requirements, in placeholder order, each under its declared identifier
(the report's arg-tagged items are exactly the identifiers of the
placeholders from position M on). -/
theorem C2_missing_positionals (serverConfig : Json) (tmplArgs : List Json)
    (provided : List String) (lookup : String → Option String)
    (hargs : jsGet serverConfig "args" = some (Json.arr tmplArgs))
    (hM : provided.length < countPlaceholders tmplArgs) :
    (validateServerRequirements serverConfig provided lookup).filter
        (fun m => decide (m.type = ReqType.arg)) =
      ((placeholderIdents tmplArgs).drop provided.length).map
        (fun n => (⟨ReqType.arg, n⟩ : MissingReq)) ∧
    ((validateServerRequirements serverConfig provided lookup).filter
        (fun m => decide (m.type = ReqType.arg))).length =
      countPlaceholders tmplArgs - provided.length := by
  have hA : validateArgsPart serverConfig provided =
      ((placeholderIdents tmplArgs).drop provided.length).map
        (fun n => (⟨ReqType.arg, n⟩ : MissingReq)) := by
    unfold validateArgsPart
    rw [hargs]
    simp [validateArgsLoop_eq]
  have hE : (validateEnvPart serverConfig lookup).filter
      (fun m => decide (m.type = ReqType.arg)) = [] := by
    rw [List.filter_eq_nil_iff]
    intro m hm
    simp [validateEnvPart_types serverConfig lookup m hm]
  have hfilter : (validateServerRequirements serverConfig provided lookup).filter
      (fun m => decide (m.type = ReqType.arg)) =
      ((placeholderIdents tmplArgs).drop provided.length).map
        (fun n => (⟨ReqType.arg, n⟩ : MissingReq)) := by
    rw [validateServerRequirements, List.filter_append, hA, hE,
      List.append_nil, List.filter_map]
    have : ((fun m => decide (m.type = ReqType.arg)) ∘
        (fun n => (⟨ReqType.arg, n⟩ : MissingReq))) = fun _ => true := by
      funext n; simp
    rw [this, List.filter_true]
  refine ⟨hfilter, ?_⟩
  rw [hfilter]
  simp [placeholderIdents, countPlaceholders]

/-- Witness for C2 at a template with two placeholders and one supplied
argument: exactly one missing positional requirement, named beta. -/
theorem C2_missing_positionals_witness :
    jsGet (Json.obj [("command", Json.str "npx"),
        ("args", Json.arr [Json.str "%\x7balpha\x7d", Json.str "mid",
          Json.str "%\x7bbeta\x7d"])]) "args" =
      some (Json.arr [Json.str "%\x7balpha\x7d", Json.str "mid",
        Json.str "%\x7bbeta\x7d"]) ∧
    List.length ["x"] <
      countPlaceholders [Json.str "%\x7balpha\x7d", Json.str "mid",
        Json.str "%\x7bbeta\x7d"] ∧
    ((validateServerRequirements
        (Json.obj [("command", Json.str "npx"),
          ("args", Json.arr [Json.str "%\x7balpha\x7d", Json.str "mid",
            Json.str "%\x7bbeta\x7d"])]) ["x"] (fun _ => none)).filter
        (fun m => decide (m.type = ReqType.arg)) =
      ((placeholderIdents [Json.str "%\x7balpha\x7d", Json.str "mid",
          Json.str "%\x7bbeta\x7d"]).drop (List.length ["x"])).map
        (fun n => (⟨ReqType.arg, n⟩ : MissingReq)) ∧
      ((validateServerRequirements
          (Json.obj [("command", Json.str "npx"),
            ("args", Json.arr [Json.str "%\x7balpha\x7d", Json.str "mid",
              Json.str "%\x7bbeta\x7d"])]) ["x"] (fun _ => none)).filter
          (fun m => decide (m.type = ReqType.arg))).length =
        countPlaceholders [Json.str "%\x7balpha\x7d", Json.str "mid",
          Json.str "%\x7bbeta\x7d"] - List.length ["x"]) :=
  ⟨rfl, by decide,
    C2_missing_positionals _ _ ["x"] (fun _ => none) rfl (by decide)⟩

/-! ### Claim C3: env placeholder resolution -/

theorem replaceEnv_fst (lookup : String → Option String) :
    ∀ l : List (String × Json),
      (replaceEnvEntries lookup l).1 = l.map (envSubstEntry lookup) := by
  intro l
  induction l with
  | nil => rfl
  | cons e rest ih =>
      rcases e with ⟨k, v⟩
      by_cases hp : isPlaceholderJson v
      · cases hl : lookup (identOfJson v) with
        | some ev =>
            by_cases hne : ev != ""
            · simp [replaceEnvEntries, envSubstEntry, hp, hl, hne, ih]
            · simp [replaceEnvEntries, envSubstEntry, hp, hl, hne, ih]
        | none => simp [replaceEnvEntries, envSubstEntry, hp, hl, ih]
      · simp [replaceEnvEntries, envSubstEntry, hp, ih]

theorem replaceEnv_warn_mem (lookup : String → Option String) :
    ∀ (l : List (String × Json)) (k : String) (v : Json),
      (k, v) ∈ l → isPlaceholderJson v = true →
      envTruthy lookup (identOfJson v) = false →
      identOfJson v ∈ (replaceEnvEntries lookup l).2 := by
  intro l
  induction l with
  | nil => intro k v hm; simp at hm
  | cons e rest ih =>
      intro k v hm hp ht
      rcases e with ⟨k1, v1⟩
      rcases List.mem_cons.mp hm with h | h
      · injection h with hk hv
        subst hk
        subst hv
        rw [envTruthy] at ht
        cases hl : lookup (identOfJson v) with
        | some ev =>
            rw [hl] at ht
            have hev : ev = "" := by simpa using ht
            subst hev
            simp [replaceEnvEntries, hp, hl]
        | none => simp [replaceEnvEntries, hp, hl]
      · have hrec := ih k v h hp ht
        by_cases hp1 : isPlaceholderJson v1
        · cases hl1 : lookup (identOfJson v1) with
          | some ev =>
              by_cases hne : ev != ""
              · simpa [replaceEnvEntries, hp1, hl1, hne] using hrec
              · simp [replaceEnvEntries, hp1, hl1, hne]
                exact .inr hrec
          | none =>
              simp [replaceEnvEntries, hp1, hl1]
              exact .inr hrec
        · simpa [replaceEnvEntries, hp1] using hrec

theorem C3_counterexample : ¬ C3Statement := by
  intro h
  have h0 := h [("K", Json.str "%\x7bX\x7d")]
    (fun n => if n = "X" then some "" else none) 0 "K" (Json.str "%\x7bX\x7d")
    rfl (by decide)
  have h1 := h0.1 (by rfl)
  rcases h1 with ⟨ev, hev, hres, _⟩
  have hev' : ev = "" := by
    rw [show identOfJson (Json.str "%\x7bX\x7d") = "X" from rfl] at hev
    simpa using hev.symm
  subst hev'
  rw [show (replaceEnvEntries (fun n => if n = "X" then some "" else none)
      [("K", Json.str "%\x7bX\x7d")]).1[0]? =
      some ("K", Json.str "%\x7bX\x7d") from rfl] at hres
  simp at hres

/-- C3 amended: the code's presence test is truthiness of the looked-up
value, so a placeholder whose identifier is set to a non-empty string is
replaced exactly once by that string (the resolved value is the looked-up
string itself, which in particular holds no placeholder syntax whenever
the variable's own value is not placeholder-shaped); a placeholder whose
identifier is unset or set to the empty string keeps the literal
placeholder text and its identifier is warned, while the operation still
returns normally. -/
theorem C3_env_resolution (envEntries : List (String × Json))
    (lookup : String → Option String) (i : Nat) (k : String) (v : Json)
    (h1 : envEntries[i]? = some (k, v)) (h2 : isPlaceholderJson v = true) :
    (∀ ev, lookup (identOfJson v) = some ev → ev ≠ "" →
        (replaceEnvEntries lookup envEntries).1[i]? = some (k, Json.str ev)) ∧
    (envTruthy lookup (identOfJson v) = false →
        (replaceEnvEntries lookup envEntries).1[i]? = some (k, v) ∧
        identOfJson v ∈ (replaceEnvEntries lookup envEntries).2) := by
  constructor
  · intro ev hev hne
    rw [replaceEnv_fst, List.getElem?_map, h1]
    simp [envSubstEntry, h2, hev, hne]
  · intro ht
    constructor
    · rw [replaceEnv_fst, List.getElem?_map, h1]
      rw [envTruthy] at ht
      cases hl : lookup (identOfJson v) with
      | some ev =>
          rw [hl] at ht
          have hev : ev = "" := by simpa using ht
          subst hev
          simp [envSubstEntry, h2, hl]
      | none => simp [envSubstEntry, h2, hl]
    · exact replaceEnv_warn_mem lookup envEntries k v
        (List.getElem?_mem h1) h2 ht

/-- Witness for C3 amended, at one entry whose variable is set to a
non-empty value (substituted) and one whose variable is unset (kept and
warned). -/
theorem C3_env_resolution_witness :
    ((replaceEnvEntries (fun n => if n = "TOKEN" then some "secret" else none)
        [("AUTH", Json.str "%\x7bTOKEN\x7d"),
         ("OTHER", Json.str "%\x7bMISSING\x7d")]).1[0]? =
      some ("AUTH", Json.str "secret")) ∧
    ((replaceEnvEntries (fun n => if n = "TOKEN" then some "secret" else none)
        [("AUTH", Json.str "%\x7bTOKEN\x7d"),
         ("OTHER", Json.str "%\x7bMISSING\x7d")]).1[1]? =
      some ("OTHER", Json.str "%\x7bMISSING\x7d") ∧
      identOfJson (Json.str "%\x7bMISSING\x7d") ∈
        (replaceEnvEntries (fun n => if n = "TOKEN" then some "secret" else none)
          [("AUTH", Json.str "%\x7bTOKEN\x7d"),
           ("OTHER", Json.str "%\x7bMISSING\x7d")]).2) :=
  ⟨(C3_env_resolution _ _ 0 "AUTH" (Json.str "%\x7bTOKEN\x7d") rfl
      (by decide)).1 "secret" (by decide) (by decide),
   (C3_env_resolution _ _ 1 "OTHER" (Json.str "%\x7bMISSING\x7d") rfl
      (by decide)).2 (by decide)⟩

/-! ### Structural lemmas about the add action -/

theorem ensureServers_ok {clientCfg cfg1 : Json} {sf : List (String × Json)}
    (h : ensureServers clientCfg = .ok (cfg1, sf)) :
    (cfg1 = clientCfg ∧ jsGet clientCfg "mcpServers" = some (Json.obj sf)) ∨
    (cfg1 = objSet clientCfg "mcpServers" (Json.obj []) ∧ sf = []) := by
  unfold ensureServers at h
  split at h
  · rename_i f hj
    simp only [Except.ok.injEq, Prod.mk.injEq] at h
    exact .inl ⟨h.1.symm, by rw [hj, h.2]⟩
  · split at h
    · simp at h
    · simp only [Except.ok.injEq, Prod.mk.injEq] at h
      exact .inr ⟨h.1.symm, h.2.symm⟩
  · simp only [Except.ok.injEq, Prod.mk.injEq] at h
    exact .inr ⟨h.1.symm, h.2.symm⟩

theorem resolveArgsStep_ok_obj {f : List (String × Json)} {provided : List String}
    {sc1 : Json} (h : resolveArgsStep (Json.obj f) provided = .ok sc1) :
    ∃ f1, sc1 = Json.obj f1 := by
  unfold resolveArgsStep at h
  split at h
  · simp only [Except.ok.injEq] at h
    exact ⟨_, by rw [← h]; rfl⟩
  · split at h
    · simp at h
    · split at h
      · simp only [Except.ok.injEq] at h
        exact ⟨_, by rw [← h]; rfl⟩
      · simp only [Except.ok.injEq] at h
        exact ⟨f, h.symm⟩
  · split at h
    · simp only [Except.ok.injEq] at h
      exact ⟨_, by rw [← h]; rfl⟩
    · simp only [Except.ok.injEq] at h
      exact ⟨f, h.symm⟩

theorem resolveArgsStep_env {sc : Json} {provided : List String} {sc1 : Json}
    (h : resolveArgsStep sc provided = .ok sc1) :
    jsGet sc1 "env" = jsGet sc "env" := by
  unfold resolveArgsStep at h
  split at h
  · simp only [Except.ok.injEq] at h
    rw [← h, jsGet_objSet_ne _ _ _ _ (by decide)]
  · split at h
    · simp at h
    · split at h
      · simp only [Except.ok.injEq] at h
        rw [← h, jsGet_objSet_ne _ _ _ _ (by decide)]
      · simp only [Except.ok.injEq] at h
        rw [h]
  · split at h
    · simp only [Except.ok.injEq] at h
      rw [← h, jsGet_objSet_ne _ _ _ _ (by decide)]
    · simp only [Except.ok.injEq] at h
      rw [h]

theorem resolveEnvStep_ok_obj {f1 : List (String × Json)}
    {lookup : String → Option String} {entry : Json} {w : List String}
    (h : resolveEnvStep (Json.obj f1) lookup = .ok (entry, w)) :
    ∃ f2, entry = Json.obj f2 := by
  unfold resolveEnvStep at h
  split at h
  · simp only [Except.ok.injEq, Prod.mk.injEq] at h
    exact ⟨_, by rw [← h.1]; rfl⟩
  · split at h
    · simp at h
    · simp only [Except.ok.injEq, Prod.mk.injEq] at h
      exact ⟨f1, h.1.symm⟩
  · simp only [Except.ok.injEq, Prod.mk.injEq] at h
    exact ⟨f1, h.1.symm⟩

theorem resolveServer_ok_obj {serverConfig : Json} {provided : List String}
    {lookup : String → Option String} {entry : Json} {w : List String}
    (h : resolveServer serverConfig provided lookup = .ok (entry, w)) :
    ∃ f2, entry = Json.obj f2 := by
  unfold resolveServer at h
  cases hA : resolveArgsStep (Json.obj (templateFields serverConfig)) provided with
  | error e => rw [hA] at h; simp at h
  | ok sc1 =>
      rw [hA] at h
      obtain ⟨f1, rfl⟩ := resolveArgsStep_ok_obj hA
      exact resolveEnvStep_ok_obj h

theorem addCommand_ok_parts {serverConfig clientCfg : Json} {server : String}
    {provided : List String} {lookup : String → Option String} {force : Bool}
    {res : Json × List String}
    (h : addCommand serverConfig clientCfg server provided lookup force = .ok res) :
    validateServerRequirements serverConfig provided lookup = [] ∧
    ∃ cfg1 sf entry,
      ensureServers clientCfg = .ok (cfg1, sf) ∧
      resolveServer serverConfig provided lookup = .ok (entry, res.2) ∧
      res.1 = objSet cfg1 "mcpServers" (Json.obj (setField sf server entry)) := by
  unfold addCommand at h
  split at h
  · rename_i hv
    split at h
    · simp at h
    · rename_i cfg1 sf hE
      split at h
      · simp at h
      · split at h
        · simp at h
        · rename_i entry warnings hR
          simp only [Except.ok.injEq] at h
          refine ⟨hv, cfg1, sf, entry, hE, ?_, ?_⟩
          · rw [hR, ← h]
          · rw [← h]
  · simp at h

theorem addCommand_ok_shape {serverConfig clientCfg : Json} {server : String}
    {provided : List String} {lookup : String → Option String} {force : Bool}
    {res : Json × List String}
    (h : addCommand serverConfig clientCfg server provided lookup force = .ok res) :
    ∃ m, res.1 = objSet clientCfg "mcpServers" m := by
  obtain ⟨_, cfg1, sf, entry, hE, _, hres⟩ := addCommand_ok_parts h
  rcases ensureServers_ok hE with ⟨hc, _⟩ | ⟨hc, _⟩
  · exact ⟨_, by rw [hres, hc]⟩
  · exact ⟨_, by rw [hres, hc, objSet_objSet]⟩

theorem replaceEnv_of_no_missing (lookup : String → Option String) :
    ∀ ef : List (String × Json), envMissingList lookup ef = [] →
      replaceEnvEntries lookup ef =
        (ef.map (fun e =>
          if isPlaceholderJson e.2 then
            (e.1, Json.str ((lookup (identOfJson e.2)).getD ""))
          else e), []) := by
  intro ef
  induction ef with
  | nil => intro _; rfl
  | cons e rest ih =>
      intro hnil
      rcases e with ⟨k, v⟩
      by_cases hp : isPlaceholderJson v
      · by_cases ht : envTruthy lookup (identOfJson v)
        · rw [envMissingList, if_pos hp, if_pos ht] at hnil
          rw [envTruthy] at ht
          cases hl : lookup (identOfJson v) with
          | some ev =>
              rw [hl] at ht
              have hne : ev ≠ "" := by simpa using ht
              simp [replaceEnvEntries, hp, hl, hne, ih hnil]
          | none => rw [hl] at ht; simp at ht
        · rw [envMissingList, if_pos hp, if_neg ht] at hnil
          simp at hnil
      · rw [envMissingList, if_neg hp] at hnil
        simp [replaceEnvEntries, hp, ih hnil]

theorem envMissing_of_validateEnvPart_nil {serverConfig : Json}
    {lookup : String → Option String} {ef : List (String × Json)}
    (hval : validateEnvPart serverConfig lookup = [])
    (hef : jsGet (Json.obj (templateFields serverConfig)) "env" =
      some (Json.obj ef)) :
    envMissingList lookup ef = [] := by
  cases serverConfig with
  | obj scf =>
      unfold validateEnvPart at hval
      simp only [templateFields] at hef
      rw [hef] at hval
      simpa using hval
  | null => simp [templateFields, jsGet, lookupField] at hef
  | bool b => simp [templateFields, jsGet, lookupField] at hef
  | num n => simp [templateFields, jsGet, lookupField] at hef
  | str s => simp [templateFields, jsGet, lookupField] at hef
  | arr l => simp [templateFields, jsGet, lookupField] at hef

/-! ### Claim C10: the env fallback branch in successful adds -/

theorem C10_counterexample : ¬ C10Statement := by
  intro h
  have h0 := h
    (Json.obj [("command", Json.str "x"),
      ("env", Json.obj [("K", Json.str "%\x7bX\x7d")])])
    (Json.obj [("mcpServers", Json.obj [])]) "srv" []
    (fun n => if n = "X" then some "%\x7bX\x7d" else none) false
    (Json.obj [("mcpServers", Json.obj [("srv",
      Json.obj [("command", Json.str "x"),
        ("env", Json.obj [("K", Json.str "%\x7bX\x7d")])])])], [])
    rfl
  have h2 := h0.2
    (Json.obj [("srv", Json.obj [("command", Json.str "x"),
      ("env", Json.obj [("K", Json.str "%\x7bX\x7d")])])])
    (Json.obj [("command", Json.str "x"),
      ("env", Json.obj [("K", Json.str "%\x7bX\x7d")])])
    [("K", Json.str "%\x7bX\x7d")] "K" (Json.str "%\x7bX\x7d")
    rfl rfl rfl (List.mem_singleton.mpr rfl) (by decide)
  exact absurd h2 (by decide)

/-- C10 amended: in every add that returns successfully the env warning
list is empty — the fallback branch (keep the placeholder and warn) never
fires, because the validator ran first with the same truthiness test and
a hard stop — and the env replacement substitutes every placeholder entry
of the template's env by the looked-up value of its identifier (so
placeholder-shaped text can survive in a persisted entry only as a
substituted value whose variable is itself set to placeholder-shaped
text, not through the fallback). -/
theorem C10_add_no_fallback (serverConfig clientCfg : Json) (server : String)
    (provided : List String) (lookup : String → Option String) (force : Bool)
    (res : Json × List String)
    (h : addCommand serverConfig clientCfg server provided lookup force = .ok res) :
    res.2 = [] ∧
    (∀ scf ef, serverConfig = Json.obj scf →
      lookupField scf "env" = some (Json.obj ef) →
      replaceEnvEntries lookup ef =
        (ef.map (fun e =>
          if isPlaceholderJson e.2 then
            (e.1, Json.str ((lookup (identOfJson e.2)).getD ""))
          else e), [])) := by
  obtain ⟨hval, cfg1, sf, entry, hE, hR, hres1⟩ := addCommand_ok_parts h
  have hvalEnv : validateEnvPart serverConfig lookup = [] :=
    (List.append_eq_nil.mp hval).2
  constructor
  · unfold resolveServer at hR
    cases hA : resolveArgsStep (Json.obj (templateFields serverConfig)) provided with
    | error e => rw [hA] at hR; simp at hR
    | ok sc1 =>
        rw [hA] at hR
        have henvf : jsGet sc1 "env" =
            jsGet (Json.obj (templateFields serverConfig)) "env" :=
          resolveArgsStep_env hA
        split at hR
        · rename_i heq
          simp at heq
        · rename_i sc1' heq
          have hsc : sc1 = sc1' := by simpa using heq
          subst hsc
          unfold resolveEnvStep at hR
          split at hR
          · rename_i ef hef
            rw [henvf] at hef
            have hm := envMissing_of_validateEnvPart_nil hvalEnv hef
            have := replaceEnv_of_no_missing lookup ef hm
            simp only [Except.ok.injEq, Prod.mk.injEq] at hR
            rw [← hR.2, this]
          · split at hR
            · simp at hR
            · simp only [Except.ok.injEq, Prod.mk.injEq] at hR
              exact hR.2.symm
          · simp only [Except.ok.injEq, Prod.mk.injEq] at hR
            exact hR.2.symm
  · intro scf ef hsc hef
    subst hsc
    have hm : envMissingList lookup ef = [] := by
      apply envMissing_of_validateEnvPart_nil hvalEnv
      simpa [templateFields, jsGet] using hef
    exact replaceEnv_of_no_missing lookup ef hm

/-- Witness for C10 amended at a successful add whose template env has one
placeholder with its variable set: no warnings, substitution by the
looked-up value. -/
theorem C10_add_no_fallback_witness :
    ((Json.obj [("mcpServers", Json.obj [("fetch",
        Json.obj [("command", Json.str "uvx"),
          ("env", Json.obj [("K", Json.str "tokval")])])])], []) :
      Json × List String).2 = ([] : List String) ∧
    (∀ scf ef,
      (Json.obj [("command", Json.str "uvx"),
        ("env", Json.obj [("K", Json.str "%\x7bTOK\x7d")])]) = Json.obj scf →
      lookupField scf "env" = some (Json.obj ef) →
      replaceEnvEntries (fun n => if n = "TOK" then some "tokval" else none) ef =
        (ef.map (fun e =>
          if isPlaceholderJson e.2 then
            (e.1, Json.str
              (((fun n => if n = "TOK" then some "tokval" else none)
                  (identOfJson e.2)).getD ""))
          else e), [])) :=
  C10_add_no_fallback
    (Json.obj [("command", Json.str "uvx"),
      ("env", Json.obj [("K", Json.str "%\x7bTOK\x7d")])])
    (Json.obj [("mcpServers", Json.obj [])]) "fetch" []
    (fun n => if n = "TOK" then some "tokval" else none) false
    (Json.obj [("mcpServers", Json.obj [("fetch",
      Json.obj [("command", Json.str "uvx"),
        ("env", Json.obj [("K", Json.str "tokval")])])])], [])
    rfl

/-! ### Claim C4: AlreadyExists without force, overwrite with force -/

/-- C4: once the requirements validate (the validator runs before the
existence check, so an invalid call fails with MissingRequirements
instead), an add whose instance name is already present (as a truthy
entry) fails with AlreadyExists when force is false — the error return
models the process exit that happens before any write, so the
configuration is left unchanged — and succeeds with force, overwriting
the entry with the freshly resolved template; an add of an absent name
succeeds, and repeating it on the persisted configuration without force
fails with AlreadyExists the second time. -/
theorem C4_already_exists (serverCfg clientCfg : Json) (server : String)
    (provided : List String) (lookup : String → Option String)
    (sf : List (String × Json)) (entry : Json) (w : List String)
    (hvalid : validateServerRequirements serverCfg provided lookup = [])
    (hsf : jsGet clientCfg "mcpServers" = some (Json.obj sf))
    (hres : resolveServer serverCfg provided lookup = .ok (entry, w)) :
    (serverPresentIn sf server = true →
        addCommand serverCfg clientCfg server provided lookup false =
          .error .alreadyExists ∧
        addCommand serverCfg clientCfg server provided lookup true =
          .ok (objSet clientCfg "mcpServers"
                (Json.obj (setField sf server entry)), w)) ∧
    (serverPresentIn sf server = false →
        addCommand serverCfg clientCfg server provided lookup false =
          .ok (objSet clientCfg "mcpServers"
                (Json.obj (setField sf server entry)), w) ∧
        addCommand serverCfg
            (objSet clientCfg "mcpServers" (Json.obj (setField sf server entry)))
            server provided lookup false =
          .error .alreadyExists) := by
  have hens : ensureServers clientCfg = .ok (clientCfg, sf) := by
    unfold ensureServers
    rw [hsf]
  constructor
  · intro hp
    constructor
    · simp [addCommand, hvalid, hens, hp]
    · simp [addCommand, hvalid, hens, hp, hres]
  · intro hp
    refine ⟨by simp [addCommand, hvalid, hens, hp, hres], ?_⟩
    have hcf : ∃ cf, clientCfg = Json.obj cf := by
      cases clientCfg with
      | obj cf => exact ⟨cf, rfl⟩
      | null => simp [jsGet] at hsf
      | bool b => simp [jsGet] at hsf
      | num n => simp [jsGet] at hsf
      | str s => simp [jsGet] at hsf
      | arr l => simp [jsGet] at hsf
    obtain ⟨cf, rfl⟩ := hcf
    have hsf' : jsGet (objSet (Json.obj cf) "mcpServers"
        (Json.obj (setField sf server entry))) "mcpServers" =
        some (Json.obj (setField sf server entry)) :=
      jsGet_objSet_self cf "mcpServers" (Json.obj (setField sf server entry))
    have hens' : ensureServers (objSet (Json.obj cf) "mcpServers"
        (Json.obj (setField sf server entry))) =
        .ok (objSet (Json.obj cf) "mcpServers"
          (Json.obj (setField sf server entry)), setField sf server entry) := by
      unfold ensureServers
      rw [hsf']
    have hpres' : serverPresentIn (setField sf server entry) server = true := by
      unfold serverPresentIn
      rw [lookupField_setField_self]
      obtain ⟨ef, rfl⟩ := resolveServer_ok_obj hres
      rfl
    simp [addCommand, hvalid, hens', hpres']

/-- Witness for C4 at the spec's fetch scenario: adding fetch to an empty
claude configuration succeeds, and running the same add again on the
persisted configuration without force fails with AlreadyExists. -/
theorem C4_already_exists_witness :
    (addCommand
        (Json.obj [("command", Json.str "uvx"),
          ("args", Json.arr [Json.str "mcp-server-fetch"])])
        (Json.obj [("mcpServers", Json.obj [])]) "fetch" [] (fun _ => none)
        false =
      .ok (objSet (Json.obj [("mcpServers", Json.obj [])]) "mcpServers"
            (Json.obj (setField [] "fetch"
              (Json.obj [("command", Json.str "uvx"),
                ("args", Json.arr [Json.str "mcp-server-fetch"])]))), []) ∧
    addCommand
        (Json.obj [("command", Json.str "uvx"),
          ("args", Json.arr [Json.str "mcp-server-fetch"])])
        (objSet (Json.obj [("mcpServers", Json.obj [])]) "mcpServers"
          (Json.obj (setField [] "fetch"
            (Json.obj [("command", Json.str "uvx"),
              ("args", Json.arr [Json.str "mcp-server-fetch"])]))))
        "fetch" [] (fun _ => none) false =
      .error .alreadyExists) :=
  (C4_already_exists
    (Json.obj [("command", Json.str "uvx"),
      ("args", Json.arr [Json.str "mcp-server-fetch"])])
    (Json.obj [("mcpServers", Json.obj [])]) "fetch" [] (fun _ => none)
    [] (Json.obj [("command", Json.str "uvx"),
      ("args", Json.arr [Json.str "mcp-server-fetch"])]) []
    rfl rfl rfl).2 rfl

/-! ### Claim C9: persisting operations preserve unrelated top-level keys -/

/-- C9: every persisting operation — add, remove, clear — only rewrites
the mcpServers member of the configuration object; any other top-level
key reads the same after the operation as before, so unrelated fields of
a client file are never dropped. -/
theorem C9_frame (clientCfg : Json) (key : String) (hkey : key ≠ "mcpServers") :
    (∀ (serverCfg : Json) (server : String) (provided : List String)
        (lookup : String → Option String) (force : Bool)
        (res : Json × List String),
        addCommand serverCfg clientCfg server provided lookup force = .ok res →
        jsGet res.1 key = jsGet clientCfg key) ∧
    (∀ (server : String) (cfg2 : Json),
        removeCommand clientCfg server = .ok cfg2 →
        jsGet cfg2 key = jsGet clientCfg key) ∧
    (∀ (count : Nat) (cfg2 : Json),
        clearCommand clientCfg = .cleared count cfg2 →
        jsGet cfg2 key = jsGet clientCfg key) := by
  refine ⟨?_, ?_, ?_⟩
  · intro serverCfg server provided lookup force res h
    obtain ⟨m, hm⟩ := addCommand_ok_shape h
    rw [hm, jsGet_objSet_ne _ _ _ _ hkey]
  · intro server cfg2 h
    unfold removeCommand at h
    split at h
    · split at h
      · simp only [Except.ok.injEq] at h
        rw [← h, jsGet_objSet_ne _ _ _ _ hkey]
      · simp at h
    · simp at h
  · intro count cfg2 h
    unfold clearCommand at h
    split at h
    · simp at h
    · split at h
      · simp at h
      · split at h
        · simp at h
        · simp only [ClearResult.cleared.injEq] at h
          rw [← h.2, jsGet_objSet_ne _ _ _ _ hkey]

/-- Witness for C9 on a configuration carrying an unrelated theme key:
one concrete add, remove and clear each leave it readable unchanged. -/
theorem C9_frame_witness :
    jsGet (Json.obj [("theme", Json.str "dark"),
        ("mcpServers", Json.obj [("fetch", Json.obj [("command", Json.str "uvx")]),
          ("srv2", Json.obj [("command", Json.str "echo")])])]) "theme" =
      jsGet (Json.obj [("theme", Json.str "dark"),
        ("mcpServers", Json.obj [("fetch",
          Json.obj [("command", Json.str "uvx")])])]) "theme" ∧
    jsGet (Json.obj [("theme", Json.str "dark"),
        ("mcpServers", Json.obj [])]) "theme" =
      jsGet (Json.obj [("theme", Json.str "dark"),
        ("mcpServers", Json.obj [("fetch",
          Json.obj [("command", Json.str "uvx")])])]) "theme" :=
  ⟨(C9_frame
      (Json.obj [("theme", Json.str "dark"),
        ("mcpServers", Json.obj [("fetch", Json.obj [("command", Json.str "uvx")])])])
      "theme" (by decide)).1
    (Json.obj [("command", Json.str "echo")]) "srv2" [] (fun _ => none) false
    (Json.obj [("theme", Json.str "dark"),
      ("mcpServers", Json.obj [("fetch", Json.obj [("command", Json.str "uvx")]),
        ("srv2", Json.obj [("command", Json.str "echo")])])], []) rfl,
   (C9_frame
      (Json.obj [("theme", Json.str "dark"),
        ("mcpServers", Json.obj [("fetch", Json.obj [("command", Json.str "uvx")])])])
      "theme" (by decide)).2.2 1
    (Json.obj [("theme", Json.str "dark"), ("mcpServers", Json.obj [])]) rfl⟩

/-! ### Claim C6: empty and missing JSON-Lines files -/

theorem C6_counterexample : ¬ C6Statement := by
  intro h
  have h2 := h.2
  rw [show readJsonlinesFile none = Except.error "jsonl read failure" from rfl]
    at h2
  simp at h2

/-- C6 amended: an empty file loads to the empty mapping without error,
but a missing (unreadable) file is an error — getJsonlinesConfig catches
the readFileSync throw and exits the process instead of returning an
empty mapping. -/
theorem C6_empty_missing :
    readJsonlinesFile (some "") = .ok (Json.obj [("mcpServers", Json.obj [])]) ∧
    readJsonlinesFile none = .error "jsonl read failure" :=
  ⟨rfl, rfl⟩

/-! ### Claim C7: clear on a configuration with zero servers -/

theorem C7_counterexample : ¬ C7Statement := by
  intro h
  have h0 := h (Json.obj [("mcpServers", Json.obj [])]) rfl
  rw [show clearCommand (Json.obj [("mcpServers", Json.obj [])]) =
    ClearResult.noServers from rfl] at h0
  exact ClearResult.noConfusion h0

/-- C7 amended: clear on a configuration whose mapping is empty succeeds
but returns early — it reports that no servers are configured, does not
persist, and reports no cleared count (in particular not a count of 0);
only on a non-empty mapping does it persist the emptied mapping and
report the prior count. -/
theorem C7_clear (cfg : Json) (f : List (String × Json))
    (h : jsGet cfg "mcpServers" = some (Json.obj f)) :
    (f = [] → clearCommand cfg = .noServers) ∧
    (f ≠ [] → clearCommand cfg =
      .cleared f.length (objSet cfg "mcpServers" (Json.obj []))) := by
  constructor
  · intro hf
    subst hf
    unfold clearCommand
    rw [h]
    rfl
  · intro hf
    have hlen : f.length ≠ 0 := fun hh => hf (List.length_eq_zero.mp hh)
    unfold clearCommand
    rw [h]
    simp [jsTruthy, jsObjectKeys, hlen]

/-- Witness for C7 amended: the early return on an empty configuration and
the persisting clear on a one-server configuration. -/
theorem C7_clear_witness :
    clearCommand (Json.obj [("mcpServers", Json.obj [])]) =
      ClearResult.noServers ∧
    clearCommand (Json.obj [("mcpServers", Json.obj [("fetch",
        Json.obj [("command", Json.str "uvx")])])]) =
      ClearResult.cleared
        (List.length [("fetch", Json.obj [("command", Json.str "uvx")])])
        (objSet (Json.obj [("mcpServers", Json.obj [("fetch",
            Json.obj [("command", Json.str "uvx")])])])
          "mcpServers" (Json.obj [])) :=
  ⟨(C7_clear (Json.obj [("mcpServers", Json.obj [])]) [] rfl).1 rfl,
   (C7_clear (Json.obj [("mcpServers", Json.obj [("fetch",
        Json.obj [("command", Json.str "uvx")])])])
      [("fetch", Json.obj [("command", Json.str "uvx")])] rfl).2
     (List.cons_ne_nil _ _)⟩

/-! ### Claim C8: the all-clients list aborts at the first unreadable
client

The claim says an unreadable client is reported and the remaining
clients still produce partial results; in the source that intent is
visible in the loop's catch branch (which prints the client and
continues), but the branch is dead code: getClientConfig catches the
read failure itself and calls process.exit(1), so the whole operation
terminates at the first unreadable client.  The theorem evaluates the
model at the failing input: claude's file is unreadable while every
other client has a readable, non-empty configuration, yet the whole
list operation ends in the process-exit error and reports none of
them. -/
theorem C8_list_exit :
    listAllClients
      (fun c => if c = "claude" then .error ()
        else .ok (Json.obj [("mcpServers",
          Json.obj [("fetch", Json.obj [("command", Json.str "uvx")])])])) =
      .error () := rfl

/-! ### Claim C5: the JSON-Lines round trip -/

theorem jsTruthy_jsOr (o : Json) (key : String) (d : Json)
    (hd : jsTruthy d = true) : jsTruthy (jsOr o key d) = true := by
  unfold jsOr
  split
  · rename_i v hv
    by_cases ht : jsTruthy v
    · rw [if_pos ht]; exact ht
    · rw [if_neg ht]; exact hd
  · exact hd

theorem entryShape_of (c : Json) (n : String) (hn : n ≠ "") :
    EntryShape n (jsonlEntryOf c) := by
  refine ⟨hn, ?_⟩
  cases hcmd : jsGet c "command" with
  | some v =>
      exact ⟨[("command", v)], jsOr c "args" (Json.arr []),
        jsOr c "env" (Json.obj []), jsOr c "auto_confirm" (Json.arr []),
        .inr ⟨v, rfl⟩, by simp [jsonlEntryOf, jsonlDefaults, hcmd],
        jsTruthy_jsOr _ _ _ rfl, jsTruthy_jsOr _ _ _ rfl,
        jsTruthy_jsOr _ _ _ rfl⟩
  | none =>
      exact ⟨[], jsOr c "args" (Json.arr []),
        jsOr c "env" (Json.obj []), jsOr c "auto_confirm" (Json.arr []),
        .inl rfl, by simp [jsonlEntryOf, jsonlDefaults, hcmd],
        jsTruthy_jsOr _ _ _ rfl, jsTruthy_jsOr _ _ _ rfl,
        jsTruthy_jsOr _ _ _ rfl⟩

theorem jsonlRecord_stable (n : String) (sc : Json) (hs : EntryShape n sc) :
    jsGet (jsonlRecordOf n sc) "name" = some (Json.str n) ∧
    jsonlEntryOf (jsonlRecordOf n sc) = sc := by
  obtain ⟨_, cmd, a, e, ac, hcmd, hsc, hta, hte, htac⟩ := hs
  subst hsc
  rcases hcmd with rfl | ⟨c, rfl⟩
  · constructor
    · rfl
    · simp [jsonlRecordOf, jsonlEntryOf, jsonlDefaults, jsOr, jsGet,
        lookupField, hta, hte, htac]
  · constructor
    · rfl
    · simp [jsonlRecordOf, jsonlEntryOf, jsonlDefaults, jsOr, jsGet,
        lookupField, hta, hte, htac]

/-- The JSON-Lines fold equation for one record, stated for rewriting. -/
theorem foldJsonl_cons (c : Json) (rest : List Json)
    (acc : List (String × Json)) :
    foldJsonl (c :: rest) acc =
      match jsGet c "name" with
      | some (Json.str n) =>
          if n != "" then foldJsonl rest (setField acc n (jsonlEntryOf c))
          else foldJsonl rest acc
      | _ => foldJsonl rest acc := rfl

theorem foldJsonl_shape :
    ∀ (records : List Json) (acc : List (String × Json)),
      (∀ p ∈ acc, EntryShape p.1 p.2) →
      ∀ p ∈ foldJsonl records acc, EntryShape p.1 p.2 := by
  intro records
  induction records with
  | nil => intro acc hacc p hp; exact hacc p hp
  | cons c rest ih =>
      intro acc hacc p hp
      rw [foldJsonl_cons] at hp
      split at hp
      · rename_i n hname
        split at hp
        · rename_i hne
          refine ih _ ?_ p hp
          intro q hq
          rcases mem_setField _ _ _ _ hq with h1 | h1
          · exact hacc q h1
          · rw [h1]
            exact entryShape_of c n (by simpa [bne_iff_ne] using hne)
        · exact ih _ hacc p hp
      · exact ih _ hacc p hp

theorem foldJsonl_nodup :
    ∀ (records : List Json) (acc : List (String × Json)),
      (acc.map Prod.fst).Nodup →
      ((foldJsonl records acc).map Prod.fst).Nodup := by
  intro records
  induction records with
  | nil => intro acc hacc; exact hacc
  | cons c rest ih =>
      intro acc hacc
      rw [foldJsonl_cons]
      split
      · rename_i n hname
        split
        · apply ih
          by_cases hmem : n ∈ acc.map Prod.fst
          · rw [setField_map_fst_of_mem _ _ _ hmem]; exact hacc
          · rw [setField_append _ _ _ hmem]
            simp only [List.map_append, List.map_cons, List.map_nil]
            rw [List.nodup_append]
            exact ⟨hacc, List.nodup_singleton _,
              by simpa [List.disjoint_singleton] using hmem⟩
        · exact ih acc hacc
      · exact ih acc hacc

theorem foldJsonl_save :
    ∀ (m acc : List (String × Json)),
      (∀ p ∈ m, EntryShape p.1 p.2) → (m.map Prod.fst).Nodup →
      (∀ k ∈ m.map Prod.fst, k ∉ acc.map Prod.fst) →
      foldJsonl (jsonlSaveRecords m) acc = acc ++ m := by
  intro m
  induction m with
  | nil => intro acc _ _ _; simp [jsonlSaveRecords, foldJsonl]
  | cons p m' ih =>
      intro acc hshape hnodup hdisj
      rcases p with ⟨n, sc⟩
      have hs : EntryShape n sc := hshape (n, sc) (List.mem_cons_self _ _)
      have hname := (jsonlRecord_stable n sc hs).1
      have hstab := (jsonlRecord_stable n sc hs).2
      have hne : (n != "") = true := by simpa [bne_iff_ne] using hs.1
      have hnotmem : n ∉ acc.map Prod.fst :=
        hdisj n (by simp)
      have hstep : foldJsonl (jsonlSaveRecords ((n, sc) :: m')) acc =
          foldJsonl (jsonlSaveRecords m') (acc ++ [(n, sc)]) := by
        show foldJsonl (jsonlRecordOf n sc :: jsonlSaveRecords m') acc = _
        rw [foldJsonl_cons, hname]
        simp only [hne, if_true]
        rw [hstab, setField_append _ _ _ hnotmem]
      rw [hstep]
      have hsplit : (∀ x : Json, (n, x) ∉ m') ∧ (m'.map Prod.fst).Nodup := by
        simpa using hnodup
      have hnodup' : (m'.map Prod.fst).Nodup := hsplit.2
      have hdisj' : ∀ k ∈ m'.map Prod.fst, k ∉ (acc ++ [(n, sc)]).map Prod.fst := by
        intro k hk
        simp only [List.map_append, List.map_cons, List.map_nil,
          List.mem_append, List.mem_singleton]
        push_neg
        refine ⟨hdisj k (by simp [hk]), ?_⟩
        intro hkn
        subst hkn
        rcases List.mem_map.mp hk with ⟨q, hq, hq1⟩
        have hq2 : (k, q.2) = q := by rw [← hq1]
        exact hsplit.1 q.2 (hq2 ▸ hq)
      have hshape' : ∀ p ∈ m', EntryShape p.1 p.2 :=
        fun q hq => hshape q (List.mem_cons_of_mem _ hq)
      rw [ih (acc ++ [(n, sc)]) hshape' hnodup' hdisj']
      simp

theorem C5_counterexample : ¬ C5Statement := by
  intro h
  rcases h.2 with ⟨cfg, hload, hsave⟩
  rw [show getJsonlinesConfig jsonlLine =
    Except.ok (Json.obj [("mcpServers", Json.obj [("fetch", Json.obj
      [("command", Json.str "uvx"),
       ("args", Json.arr [Json.str "mcp-server-fetch"]),
       ("env", Json.obj []), ("auto_confirm", Json.arr [])])])]) from rfl]
    at hload
  have hcfg : cfg = Json.obj [("mcpServers", Json.obj [("fetch", Json.obj
      [("command", Json.str "uvx"),
       ("args", Json.arr [Json.str "mcp-server-fetch"]),
       ("env", Json.obj []), ("auto_confirm", Json.arr [])])])] := by
    injection hload with h1
    exact h1.symm
  subst hcfg
  rw [show updateJsonlinesConfig (Json.obj [("mcpServers", Json.obj
      [("fetch", Json.obj
        [("command", Json.str "uvx"),
         ("args", Json.arr [Json.str "mcp-server-fetch"]),
         ("env", Json.obj []), ("auto_confirm", Json.arr [])])])]) =
    "\x7b\"name\":\"fetch\",\"command\":\"uvx\",\"args\":[\"mcp-server-fetch\"],\"env\":\x7b\x7d,\"auto_confirm\":[]\x7d"
    from rfl] at hsave
  exact absurd hsave (by decide)

/-- C5 amended: loading a JSON-Lines file and saving it with zero
operations reproduces an equivalent mapping — folding the records the
save emits yields exactly the loaded mapping, for every record list —
and the sample line loads to the normalized fetch mapping and re-saves
to a single line denoting the same record with the defaulted env and
auto_confirm fields made explicit (not to the identical input line);
reloading that saved line yields the identical mapping, so the round
trip is stable from the first save on. -/
theorem C5_roundtrip :
    (∀ records : List Json,
        jsonlFold (jsonlSaveRecords (jsonlFold records)) = jsonlFold records) ∧
    getJsonlinesConfig jsonlLine =
      .ok (Json.obj [("mcpServers", Json.obj [("fetch", Json.obj
        [("command", Json.str "uvx"),
         ("args", Json.arr [Json.str "mcp-server-fetch"]),
         ("env", Json.obj []), ("auto_confirm", Json.arr [])])])]) ∧
    updateJsonlinesConfig (Json.obj [("mcpServers", Json.obj [("fetch",
        Json.obj [("command", Json.str "uvx"),
          ("args", Json.arr [Json.str "mcp-server-fetch"]),
          ("env", Json.obj []), ("auto_confirm", Json.arr [])])])]) =
      "\x7b\"name\":\"fetch\",\"command\":\"uvx\",\"args\":[\"mcp-server-fetch\"],\"env\":\x7b\x7d,\"auto_confirm\":[]\x7d" ∧
    getJsonlinesConfig
        "\x7b\"name\":\"fetch\",\"command\":\"uvx\",\"args\":[\"mcp-server-fetch\"],\"env\":\x7b\x7d,\"auto_confirm\":[]\x7d" =
      .ok (Json.obj [("mcpServers", Json.obj [("fetch", Json.obj
        [("command", Json.str "uvx"),
         ("args", Json.arr [Json.str "mcp-server-fetch"]),
         ("env", Json.obj []), ("auto_confirm", Json.arr [])])])]) := by
  refine ⟨?_, rfl, rfl, rfl⟩
  intro records
  have h := foldJsonl_save (jsonlFold records) []
    (foldJsonl_shape records [] (by intro p hp; simp at hp))
    (foldJsonl_nodup records [] (by simp))
    (by intro k _; simp)
  simpa [jsonlFold] using h

end MCPC
